import Mathlib

/-!
Shallow embedding of the template-literal value-resolution engine
(`src/parsers/template-literal-parser.ts`, `src/resolvers/value-extractor.ts`,
`src/resolvers/variable-resolver.ts`, `src/resolvers/import-resolver.ts`,
`src/utils/typescript-helpers.ts`).

Modelling conventions:
* The TypeScript AST fragment actually inspected by the code is embedded as
  inductive types below.  String-literal nodes carry both their cooked text
  (`.text` in the source) and their quote style, so that `getText()` (which
  returns the raw source slice, quotes included) can be modelled.
* `getText()` on type nodes is modelled by a deterministic renderer that
  prints the canonical source form of the embedded node.
* Effectful calls (file stat, opening a document) are supplied through an
  explicit environment; `try`/`catch` blocks of the source are modelled by
  handling the `Except` value at exactly the places the source has a `catch`.
* The recursive extractor is not structurally terminating (that is the point
  of claim C1), so it takes an explicit fuel argument; running out of fuel is
  the counterpart of unbounded recursion in the source.
-/

namespace TP

/-- Quote style of a string literal in the source text. -/
inductive QuoteKind
  | double
  | single
deriving DecidableEq, Repr

/-- A string-literal token: cooked text plus quote style. -/
structure StrLit where
  text : String
  quote : QuoteKind
deriving DecidableEq, Repr

/-- One-character string holding the single-quote character. -/
def squote : String := String.mk [Char.ofNat 39]

/-- Join strings with the union separator of the source text. -/
def joinBar : List String → String
  | [] => ""
  | [s] => s
  | s :: rest => s ++ " | " ++ joinBar rest

/-- Does the string contain the character?  (Model of `includes` for a
one-character needle.) -/
def strHasChar (s : String) (c : Char) : Bool := s.data.contains c

/-- Model of `String.prototype.startsWith`. -/
def strStartsWith (s p : String) : Bool := p.data.isPrefixOf s.data

/-- Model of a trailing-match test (`endsWith`). -/
def strEndsWith (s p : String) : Bool := p.data.isSuffixOf s.data

/-- Drop the last `n` characters. -/
def strDropRight (s : String) (n : Nat) : String :=
  String.mk (s.data.take (s.data.length - n))

/-- Split a character list at every occurrence of the separator. -/
def splitCharsOnDot : List Char → List (List Char)
  | [] => [[]]
  | c :: cs =>
    if c == Char.ofNat 46 then [] :: splitCharsOnDot cs
    else
      match splitCharsOnDot cs with
      | [] => [[c]]
      | w :: ws => (c :: w) :: ws

/-- Model of `expression.split(".")`. -/
def splitOnDot (s : String) : List String := (splitCharsOnDot s.data).map String.mk

/-- The `getText()` text of a string literal: the raw source slice, quotes included. -/
def StrLit.getText : StrLit → String
  | ⟨t, .double⟩ => "\"" ++ t ++ "\""
  | ⟨t, .single⟩ => squote ++ t ++ squote

/-- A property name: identifier or string literal. -/
inductive PropName
  | ident (name : String)
  | strName (l : StrLit)
deriving DecidableEq, Repr

/-- The `getText()` text of a property name. -/
def PropName.getText : PropName → String
  | .ident n => n
  | .strName l => l.getText

/-- Model of `s.replace(/"/g, "")`: drop every double-quote character. -/
def stripDQ (s : String) : String := String.mk (s.data.filter (fun c => c ≠ '"'))

/-- The fragment of TypeScript type nodes the resolver inspects. -/
inductive TypeNode
  | unionType (types : List TypeNode)
  | literalType (l : StrLit)
  | indexedAccess (objectType : TypeNode) (indexType : TypeNode)
  | typeQuery (name : String)
  | keyofType (t : TypeNode)
  | parenType (t : TypeNode)
  | typeRef (name : String)
  | otherType (text : String)

mutual
/-- The `getText()` text of a type node: canonical source rendering. -/
def render : TypeNode → String
  | .unionType ts => joinBar (renderList ts)
  | .literalType l => l.getText
  | .indexedAccess o i => render o ++ "[" ++ render i ++ "]"
  | .typeQuery n => "typeof " ++ n
  | .keyofType t => "keyof " ++ render t
  | .parenType t => "(" ++ render t ++ ")"
  | .typeRef n => n
  | .otherType s => s

/-- Renders each member of a list of type nodes. -/
def renderList : List TypeNode → List String
  | [] => []
  | t :: ts => render t :: renderList ts
end

end TP

namespace TP

/-- A function or arrow-function parameter (identifier binding, optional
declared type).  Parameter default values are not used by the code. -/
structure Param where
  name : String
  type : Option TypeNode

mutual
/-- The fragment of TypeScript expressions the resolver inspects.  Arrow
bodies are modelled as concise (expression) bodies, which is the shape used
by the analysed fixtures. -/
inductive Expr
  | objectLit (props : List ObjProp)
  | asExpr (e : Expr) (ty : TypeNode)
  | strLit (l : StrLit)
  | identifier (name : String)
  | arrow (params : List Param) (body : Expr)
  | call (callee : Expr) (args : List Expr)
  | propAccess (obj : Expr) (name : String)
  | otherExpr

/-- An object-literal member; anything that is not a plain property
assignment (shorthand, spread, ...) is `otherProp` and is filtered out by
`ts.isPropertyAssignment`. -/
inductive ObjProp
  | assign (name : PropName) (init : Expr)
  | otherProp
end

/-- A variable declaration with identifier binding, optional declared type
and optional initializer. -/
structure VarDecl where
  name : String
  type : Option TypeNode
  init : Option Expr

/-- An enum member: name plus optional initializer expression. -/
structure EnumMember where
  name : PropName
  init : Option Expr

/-- Top-level statements of a source file, restricted to the shapes the
resolver distinguishes.  Import statements are modelled with their named
bindings and their (string-literal) module specifier. -/
inductive Statement
  | varStmt (exported : Bool) (decls : List VarDecl)
  | enumStmt (exported : Bool) (name : String) (members : List EnumMember)
  | aliasStmt (exported : Bool) (name : String) (ty : TypeNode)
  | importStmt (names : List String) (moduleSpec : String)
  | exportStmt (names : List String)
  | exprStmt (e : Expr)
  | otherStmt

/-- A parsed source file (`ts.SourceFile`): its top-level statements. -/
structure SourceFile where
  statements : List Statement

/-- A declaration node as returned by the lookup helpers and consumed by
`extractValuesFromDeclaration`: variable declaration, enum declaration,
type alias, parameter, or property signature. -/
inductive Decl
  | var (d : VarDecl)
  | enumD (name : String) (members : List EnumMember)
  | alias (name : String) (ty : TypeNode)
  | param (p : Param)
  | propSig (name : String) (ty : Option TypeNode)

/-- Does a `Decl` satisfy the match performed by `findDeclarationInFile`
(src/utils/typescript-helpers.ts lines 11-33): a variable declaration, enum
declaration or type alias whose bound name equals the query?  Parameters and
property signatures are never matched by that finder. -/
def v1Candidate (n : String) : Decl → Bool
  | .var d => d.name == n
  | .enumD nm _ => nm == n
  | .alias nm _ => nm == n
  | .param _ => false
  | .propSig _ _ => false

mutual
/-- Pre-order search of an expression for the first node matched by
`findDeclarationInFile`: only nested arrow bodies and sub-expressions can
contain such nodes; parameter nodes are visited but never matched. -/
def findInExpr (n : String) : Expr → Option Decl
  | .objectLit props => findInProps n props
  | .asExpr e _ => findInExpr n e
  | .strLit _ => none
  | .identifier _ => none
  | .arrow _ body => findInExpr n body
  | .call callee args => (findInExpr n callee).or (findInExprs n args)
  | .propAccess obj _ => findInExpr n obj
  | .otherExpr => none

/-- Pre-order search of a list of expressions. -/
def findInExprs (n : String) : List Expr → Option Decl
  | [] => none
  | e :: rest => (findInExpr n e).or (findInExprs n rest)

/-- Pre-order search of object-literal members. -/
def findInProps (n : String) : List ObjProp → Option Decl
  | [] => none
  | .assign _ init :: rest => (findInExpr n init).or (findInProps n rest)
  | .otherProp :: rest => findInProps n rest
end

/-- Search the optional initializer of a variable declaration. -/
def findInInit (n : String) : Option Expr → Option Decl
  | none => none
  | some e => findInExpr n e

/-- Pre-order search of a declaration list: the variable-declaration node is
matched before its initializer is visited. -/
def findInDecls (n : String) : List VarDecl → Option Decl
  | [] => none
  | d :: rest =>
    if d.name == n then some (.var d)
    else (findInInit n d.init).or (findInDecls n rest)

/-- Pre-order search of enum members (their initializer expressions). -/
def findInMembers (n : String) : List EnumMember → Option Decl
  | [] => none
  | m :: rest => (findInInit n m.init).or (findInMembers n rest)

/-- Pre-order search of one statement. -/
def findInStmt (n : String) : Statement → Option Decl
  | .varStmt _ decls => findInDecls n decls
  | .enumStmt _ nm members =>
    if nm == n then some (.enumD nm members) else findInMembers n members
  | .aliasStmt _ nm ty => if nm == n then some (.alias nm ty) else none
  | .importStmt _ _ => none
  | .exportStmt _ => none
  | .exprStmt e => findInExpr n e
  | .otherStmt => none

/-- Pre-order search of a statement list. -/
def findInStmts (n : String) : List Statement → Option Decl
  | [] => none
  | s :: rest => (findInStmt n s).or (findInStmts n rest)

/-- Embedding of `findDeclarationInFile` (src/utils/typescript-helpers.ts lines 5-40):
depth-first pre-order walk of the whole file returning the first variable
declaration, enum declaration or type alias whose bound name equals `n`. -/
def findDeclarationInFile (f : SourceFile) (n : String) : Option Decl :=
  findInStmts n f.statements

mutual
/-- Pre-order sequence of every declaration-like node (variable declaration,
enum, type alias, parameter) occurring in an expression. -/
def ordExpr : Expr → List Decl
  | .objectLit props => ordProps props
  | .asExpr e _ => ordExpr e
  | .strLit _ => []
  | .identifier _ => []
  | .arrow params body => params.map .param ++ ordExpr body
  | .call callee args => ordExpr callee ++ ordExprs args
  | .propAccess obj _ => ordExpr obj
  | .otherExpr => []

/-- Pre-order declaration sequence of a list of expressions. -/
def ordExprs : List Expr → List Decl
  | [] => []
  | e :: rest => ordExpr e ++ ordExprs rest

/-- Pre-order declaration sequence of object-literal members. -/
def ordProps : List ObjProp → List Decl
  | [] => []
  | .assign _ init :: rest => ordExpr init ++ ordProps rest
  | .otherProp :: rest => ordProps rest
end

/-- Pre-order declaration sequence of an optional initializer. -/
def ordInit : Option Expr → List Decl
  | none => []
  | some e => ordExpr e

/-- Pre-order declaration sequence of a declaration list. -/
def ordDecls : List VarDecl → List Decl
  | [] => []
  | d :: rest => .var d :: (ordInit d.init ++ ordDecls rest)

/-- Pre-order declaration sequence of enum members. -/
def ordMembers : List EnumMember → List Decl
  | [] => []
  | m :: rest => ordInit m.init ++ ordMembers rest

/-- Pre-order declaration sequence of one statement. -/
def ordStmt : Statement → List Decl
  | .varStmt _ decls => ordDecls decls
  | .enumStmt _ nm members => .enumD nm members :: ordMembers members
  | .aliasStmt _ nm ty => [.alias nm ty]
  | .importStmt _ _ => []
  | .exportStmt _ => []
  | .exprStmt e => ordExpr e
  | .otherStmt => []

/-- Pre-order declaration sequence of a statement list. -/
def ordStmts : List Statement → List Decl
  | [] => []
  | s :: rest => ordStmt s ++ ordStmts rest

/-- Pre-order sequence of every declaration-like node of a file. -/
def declOrder (f : SourceFile) : List Decl :=
  ordStmts f.statements

end TP

namespace TP

/-- Word character of the regex class `\w`: letters, digits, underscore. -/
def isWordChar (c : Char) : Bool := c.isAlphanum || c == '_'

/-- Consume an exact literal character sequence. -/
def expectLit : List Char → List Char → Option (List Char)
  | [], cs => some cs
  | _ :: _, [] => none
  | p :: ps, c :: cs => if c == p then expectLit ps cs else none

/-- Consume `\s+`: at least one whitespace character, maximal munch. -/
def ws1 : List Char → Option (List Char)
  | [] => none
  | c :: cs => if c.isWhitespace then some (cs.dropWhile Char.isWhitespace) else none

/-- Try to match `\(typeof\s+(\w+)\)\[keyof\s+typeof\s+\w+\]` at the head of
the character list, returning the first capture group. -/
def tryTypeofAt (cs : List Char) : Option String :=
  (expectLit "(typeof".data cs).bind fun cs1 =>
  (ws1 cs1).bind fun cs2 =>
  let w := cs2.takeWhile isWordChar
  let cs3 := cs2.dropWhile isWordChar
  if w.isEmpty then none else
  (expectLit ")[keyof".data cs3).bind fun cs4 =>
  (ws1 cs4).bind fun cs5 =>
  (expectLit "typeof".data cs5).bind fun cs6 =>
  (ws1 cs6).bind fun cs7 =>
  let w2 := cs7.takeWhile isWordChar
  let cs8 := cs7.dropWhile isWordChar
  if w2.isEmpty then none else
  (expectLit "]".data cs8).map fun _ => String.mk w

/-- Scan every start position left to right (semantics of `String.match` for
a first match). -/
def scanTypeof : List Char → Option String
  | [] => none
  | c :: rest => (tryTypeofAt (c :: rest)).or (scanTypeof rest)

/-- Model of `typeText.match(/\(typeof\s+(\w+)\)\[keyof\s+typeof\s+\w+\]/)`
returning the captured object name of the first match, if any. -/
def typeofPatternMatch (s : String) : Option String := scanTypeof s.data

/-- An import statement, as returned by `findImportDeclaration`: its named
bindings and its module specifier. -/
structure ImportInfo where
  names : List String
  moduleSpec : String

/-- Embedding of `findImportDeclaration` (src/utils/typescript-helpers.ts lines 42-60):
scan top-level import statements for a named binding equal to `varName` and
return the first matching statement. -/
def findImportDeclaration (f : SourceFile) (varName : String) : Option ImportInfo :=
  f.statements.findSome? fun s =>
    match s with
    | .importStmt names m =>
      if names.contains varName then some ⟨names, m⟩ else none
    | _ => none

/-- The statement-loop of `findExportedDeclaration` (lines 66-99).  A result
of `some r` means the loop executed `return r` (note `r` itself may be
`none`: a matching named-export clause returns the result of
`findDeclarationInFile` unconditionally); `none` means the loop finished. -/
def exportLoop (f : SourceFile) (name : String) : List Statement → Option (Option Decl)
  | [] => none
  | s :: rest =>
    match s with
    | .exportStmt names =>
      if names.contains name then some (findDeclarationInFile f name)
      else exportLoop f name rest
    | .varStmt true decls =>
      match decls.find? (fun d => d.name == name) with
      | some d => some (some (.var d))
      | none => exportLoop f name rest
    | .enumStmt true nm members =>
      if nm == name then some (some (.enumD nm members)) else exportLoop f name rest
    | .aliasStmt true nm ty =>
      if nm == name then some (some (.alias nm ty)) else exportLoop f name rest
    | _ => exportLoop f name rest

/-- Embedding of `findExportedDeclaration` (src/utils/typescript-helpers.ts lines 62-102):
named-export clauses and directly exported declarations first, then the
whole-file finder as fallback when the loop finishes without returning. -/
def findExportedDeclaration (f : SourceFile) (name : String) : Option Decl :=
  match exportLoop f name f.statements with
  | some r => r
  | none => findDeclarationInFile f name

/-- The initializer test of `findConstObjectDeclaration`: a direct object
literal, or an object literal under an `as` expression. -/
def constObjInit : Option Expr → Bool
  | some (.objectLit _) => true
  | some (.asExpr (.objectLit _) _) => true
  | _ => false

/-- Embedding of `findConstObjectDeclaration` (src/resolvers/value-extractor.ts lines
212-258): first variable declaration named `name` whose initializer is an
object literal (possibly under `as`). -/
def findConstObjectDeclaration (f : SourceFile) (name : String) : Option VarDecl :=
  f.statements.findSome? fun s =>
    match s with
    | .varStmt _ decls => decls.find? (fun d => d.name == name && constObjInit d.init)
    | _ => none

/-- Suffixes matched by the script-extension regex
`/\.(m?[tj]sx?|[cm]js)$/` of the import resolver. -/
def scriptExtList : List String :=
  [".ts", ".tsx", ".js", ".jsx", ".mts", ".mtsx", ".mjs", ".mjsx", ".cjs"]

/-- The `hasExtension` test of `resolveImportPath`. -/
def hasScriptExt (s : String) : Bool := scriptExtList.any (fun e => strEndsWith s e)

/-- Model of `importPath.replace(/\.m?js$/, x)`: substitute a trailing `.mjs` or
`.js` with `x`, otherwise leave the path unchanged. -/
def substMjs (s : String) (x : String) : String :=
  if strEndsWith s ".mjs" then strDropRight s 4 ++ x
  else if strEndsWith s ".js" then strDropRight s 3 ++ x
  else s

/-- Model of `importPath.replace(/\.cjs$/, ".cts")`. -/
def substCjs (s : String) : String :=
  if strEndsWith s ".cjs" then strDropRight s 4 ++ ".cts" else s

/-- Candidate list tried when the specifier already has a script extension
(src/resolvers/import-resolver.ts lines 19-25). -/
def relCandidatesExt (p : String) : List String :=
  [substMjs p ".ts", substMjs p ".tsx", substMjs p ".mts", substCjs p, p]

/-- Candidate list tried when the specifier has no script extension
(line 39): the fixed ordered extension list appended. -/
def relCandidatesNoExt (p : String) : List String :=
  [p ++ ".ts", p ++ ".tsx", p ++ ".js", p ++ ".jsx"]

/-- Relative-specifier test (line 15). -/
def isRelativeSpec (p : String) : Bool := strStartsWith p "./" || strStartsWith p "../"

/-- The `for` loop over candidates: `stat` each one (modelled by the `fs`
existence predicate; the `try`/`catch` around `stat` is the `if`), first
existing candidate wins. -/
def tryCandidates (fs : String → Bool) : List String → Option String
  | [] => none
  | c :: rest => if fs c then some c else tryCandidates fs rest

/-- Embedding of `resolveImportPath` (src/resolvers/import-resolver.ts lines 4-56).
Paths are modelled relative to the importing document directory (the
`vscode.Uri.joinPath(documentDir, ...)` prefix is common to every candidate
and is dropped).  The module specifier is modelled as the string it holds. -/
def resolveImportPath (fs : String → Bool) (importPath : String) : Option String :=
  if isRelativeSpec importPath then
    if hasScriptExt importPath then
      match tryCandidates fs (relCandidatesExt importPath) with
      | some p => some p
      | none => some importPath
    else
      match tryCandidates fs (relCandidatesNoExt importPath) with
      | some p => some p
      | none => some (importPath ++ ".ts")
  else
    none

/-- The candidate list of a relative specifier, by extension shape. -/
def relCandidates (p : String) : List String :=
  if hasScriptExt p then relCandidatesExt p else relCandidatesNoExt p

/-- The fallback location returned when no candidate exists on disk. -/
def relDefault (p : String) : String :=
  if hasScriptExt p then p else p ++ ".ts"

end TP

namespace TP

/-- A template part (src/types.ts): static text or an interpolated variable
expression (its cleaned source text). -/
inductive TemplatePart
  | staticPart (value : String)
  | varPart (value : String)

/-- The resolved-value map (`Map<string, string[]>`), with `Map.get`
modelled by first-match association lookup. -/
def lookupVals (m : List (String × List String)) (k : String) : Option (List String) :=
  (m.find? (fun e => e.1 == k)).map (fun e => e.2)

/-- The placeholder substituted for a variable part with no resolved
values: the original expression text in curly braces. -/
def placeholder (v : String) : String := "\x7b" ++ v ++ "\x7d"

/-- The inner `generate(index, current)` recursion of `generateCombinations`
(src/parsers/template-literal-parser.ts lines 86-105), returning the pushed
results in push order: every completed combination is materialized here,
before any truncation. -/
def genAll (vals : List (String × List String)) :
    List TemplatePart → String → List String
  | [], current => [current]
  | .staticPart s :: rest, current => genAll vals rest (current ++ s)
  | .varPart v :: rest, current =>
    match lookupVals vals v with
    | some values =>
      if values.length > 0 then
        (values.take 10).flatMap (fun x => genAll vals rest (current ++ x))
      else
        genAll vals rest (current ++ placeholder v)
    | none => genAll vals rest (current ++ placeholder v)

/-- Embedding of `generateCombinations` (lines 80-109): run the full recursion from an
empty prefix, then `results.slice(0, 20)`. -/
def generateCombinations (templateParts : List TemplatePart)
    (variableValues : List (String × List String)) : List String :=
  (genAll variableValues templateParts "").take 20

/-- Specification-level Cartesian expansion: leftmost part outermost (so the
leftmost variable varies slowest), each resolved variable branching on its
first ten values in original order, unresolved variables replaced by the
placeholder.  Used to state what `genAll` computes. -/
def combos (vals : List (String × List String)) : List TemplatePart → List String
  | [] => [""]
  | .staticPart s :: rest => (combos vals rest).map (fun t => s ++ t)
  | .varPart v :: rest =>
    match lookupVals vals v with
    | some values =>
      if values.length > 0 then
        (values.take 10).flatMap (fun x => (combos vals rest).map (fun t => x ++ t))
      else
        (combos vals rest).map (fun t => placeholder v ++ t)
    | none => (combos vals rest).map (fun t => placeholder v ++ t)

/-- Number of results the recursion materializes: the product over the parts
of each branching factor (ten-capped value count for a resolved variable,
one otherwise). -/
def branchProduct (vals : List (String × List String)) : List TemplatePart → Nat
  | [] => 1
  | .staticPart _ :: rest => branchProduct vals rest
  | .varPart v :: rest =>
    match lookupVals vals v with
    | some values =>
      if values.length > 0 then
        (values.take 10).length * branchProduct vals rest
      else
        branchProduct vals rest
    | none => branchProduct vals rest

/-- Number of variable parts of a template. -/
def varCount : List TemplatePart → Nat
  | [] => 0
  | .staticPart _ :: rest => varCount rest
  | .varPart _ :: rest => 1 + varCount rest

end TP

namespace TP

/-- A failure escaping a resolution function: a host/filesystem error thrown
by opening a document, or exhaustion of the recursion budget (the model of
unbounded recursion). -/
inductive RErr
  | ioErr (msg : String)
  | fuelExhausted
deriving DecidableEq, Repr

/-- The effectful host interface: `fs.stat` existence checks and
`vscode.workspace.openTextDocument` followed by `ts.createSourceFile`. -/
structure Env where
  fs : String → Bool
  openDoc : String → Except String SourceFile

/-- Enum extraction (value-extractor.ts lines 22-30): explicit string
initializer if present, member name text otherwise. -/
def enumValues (members : List EnumMember) : List String :=
  members.map fun m =>
    match m.init with
    | some (.strLit l) => l.text
    | _ => m.name.getText

/-- Object-literal key extraction (lines 35-41): property assignments only,
name text with double quotes removed. -/
def objectKeys (props : List ObjProp) : List String :=
  props.filterMap fun p =>
    match p with
    | .assign nm _ => some (stripDQ nm.getText)
    | .otherProp => none

/-- The keys of a const-object declaration found by
`findConstObjectDeclaration` (its initializer is an object literal, possibly
under `as`). -/
def constObjectKeys (vd : VarDecl) : List String :=
  match vd.init with
  | some (.objectLit props) => objectKeys props
  | some (.asExpr (.objectLit props) _) => objectKeys props
  | _ => []

/-- The local-then-import type lookup repeated at the `as`-expression,
property-signature, `resolvePropertyValue` and `resolveTypeAssertion` sites:
`findDeclarationInFile`, then (when a document is available) the import
lookup, path resolution, document open (inside `try`/`catch`: a failure is
absorbed) and `findExportedDeclaration`.  Returns the declaration together
with its source file and the document it came from. -/
def findTypeDeclWithImports (env : Env) (f : SourceFile) (doc : Option String)
    (typeName : String) : Option (SourceFile × Option String × Decl) :=
  match findDeclarationInFile f typeName with
  | some d => some (f, doc, d)
  | none =>
    match doc with
    | none => none
    | some _ =>
      match findImportDeclaration f typeName with
      | none => none
      | some imp =>
        match resolveImportPath env.fs imp.moduleSpec with
        | none => none
        | some p =>
          match env.openDoc p with
          | .error _ => none
          | .ok impFile =>
            match findExportedDeclaration impFile typeName with
            | none => none
            | some d => some (impFile, some p, d)

/-- String-literal members of a union type node: literal source text with
double quotes removed (lines 135-141 of typescript-helpers.ts). -/
def unionLiteralTexts (ts : List TypeNode) : List String :=
  ts.filterMap fun t =>
    match t with
    | .literalType l => some (stripDQ l.getText)
    | _ => none

/-- Embedding of `extractStringLiteralsFromType` (src/utils/typescript-helpers.ts lines
126-157).  As in the source, the recursive extractor is passed in as the
`extractCb` parameter; the indexed-access branch calls it without a
document. -/
def extractStringLiteralsFromType (ty : TypeNode) (f : SourceFile)
    (extractCb : Decl → SourceFile → Option String → Except RErr (List String)) :
    Except RErr (List String) :=
  match ty with
  | .unionType ts => .ok (unionLiteralTexts ts)
  | .indexedAccess (.typeQuery exprName) _ =>
    (match findDeclarationInFile f exprName with
     | some d => extractCb d f none
     | none => .ok [])
  | _ => .ok []

/-- Embedding of `extractValuesFromDeclaration` (src/resolvers/value-extractor.ts lines
11-210), with an explicit recursion budget: every recursive call runs at the
predecessor budget, and a budget of zero is the model of unbounded
recursion (the source has no visited set and no depth bound). -/
def extract (env : Env) : Nat → SourceFile → Option String → Decl →
    Except RErr (List String)
  | 0, _, _, _ => .error .fuelExhausted
  | Nat.succ n, f, doc, d =>
    match d with
    | .enumD _ members => .ok (enumValues members)
    | .var vd =>
      (match vd.init with
       | none => .ok []
       | some (.objectLit props) => .ok (objectKeys props)
       | some (.asExpr (.objectLit props) _) => .ok (objectKeys props)
       | some (.asExpr inner ty) =>
         let fallback : Except RErr (List String) :=
           match inner with
           | .strLit l => .ok [l.text]
           | _ => .ok []
         (match findTypeDeclWithImports env f doc (render ty) with
          | some (tf, _, td) =>
            (extract env n tf doc td).bind fun tv =>
              if tv.length > 0 then .ok tv else fallback
          | none => fallback)
       | some (.strLit l) => .ok [l.text]
       | some _ => .ok [])
    | .alias _ ty =>
      let eslft : Except RErr (List String) :=
        extractStringLiteralsFromType ty f (fun d2 f2 doc2 => extract env n f2 doc2 d2)
      (match typeofPatternMatch (render ty) with
       | some objectName =>
         (match findConstObjectDeclaration f objectName with
          | some od =>
            (extract env n f doc (.var od)).bind fun ov =>
              if ov.length > 0 then .ok ov else eslft
          | none => eslft)
       | none => eslft)
    | .propSig _ tyOpt =>
      (match tyOpt with
       | none => .ok []
       | some ty =>
         let unionFallback : Except RErr (List String) :=
           match ty with
           | .unionType _ =>
             extractStringLiteralsFromType ty f (fun d2 f2 doc2 => extract env n f2 doc2 d2)
           | _ => .ok []
         (match findTypeDeclWithImports env f doc (render ty) with
          | some (tf, nd, td) =>
            (extract env n tf nd td).bind fun v =>
              if v.length > 0 then .ok v else unionFallback
          | none => unionFallback))
    | .param _ => .ok []

/-- Embedding of `resolvePropertyValue` (src/resolvers/value-extractor.ts lines 260-333),
applied to the initializer of the found property assignment. -/
def resolvePropertyValue (env : Env) (fuel : Nat) (propInit : Expr)
    (f : SourceFile) (docPath : String) : Except RErr (List String) :=
  match propInit with
  | .asExpr inner ty =>
    let fallback : Except RErr (List String) :=
      match inner with
      | .strLit l => .ok [l.text]
      | _ => .ok []
    (match findTypeDeclWithImports env f (some docPath) (render ty) with
     | some (tf, nd, td) =>
       (extract env fuel tf nd td).bind fun tv =>
         if tv.length > 0 then .ok tv else fallback
     | none => fallback)
  | .identifier nm =>
    (match findDeclarationInFile f nm with
     | some rd => extract env fuel f (some docPath) rd
     | none => .ok [])
  | .strLit l => .ok [l.text]
  | _ => .ok []

/-- Embedding of `extractFromTypeNode` of the refactored extractor variant
(src/resolvers/value-extractor.ts lines 678-697): union members keep their
source text minus double quotes, a single string-literal type yields its
cooked text. -/
def extractFromTypeNode (ty : TypeNode) : List String :=
  match ty with
  | .unionType ts => unionLiteralTexts ts
  | .literalType l => [l.text]
  | _ => []

/-- The parameter dispatch of the refactored extractor
(src/resolvers/value-extractor.ts lines 559-561): a parameter is resolved
from its own declared type annotation only; a parameter without one falls
through to the final empty return. -/
def extractFromParam (p : Param) : List String :=
  match p.type with
  | some ty => extractFromTypeNode ty
  | none => []

end TP

namespace TP

/-- Results of the position-based strategies of `resolveVariable`.  Each of
these source functions wraps its whole body in `try`/`catch` and queries the
external language service only, so each is modelled as the list it
returns. -/
structure Oracle where
  unionFromPosition : List String
  languageService : List String
  hover : List String
  langServer : List String

/-- Embedding of `resolveTypeAssertion` (src/resolvers/variable-resolver.ts lines
178-276): declaration lookup by the raw expression text, `as`-expression
check, type lookup (imports wrapped in `try`/`catch`), then unconditional
extraction from the found type declaration. -/
def resolveTypeAssertion (env : Env) (fuel : Nat) (varExpression : String)
    (f : SourceFile) (docPath : String) : Except RErr (List String) :=
  match findDeclarationInFile f varExpression with
  | none => .ok []
  | some d =>
    match d with
    | .var vd =>
      (match vd.init with
       | some (.asExpr _ ty) =>
         (match findTypeDeclWithImports env f (some docPath) (render ty) with
          | some (tf, nd, td) => extract env fuel tf nd td
          | none => .ok [])
       | _ => .ok [])
    | _ => .ok []

/-- The root-object lookup of `resolvePropertyAccess` (lines 462-491): local
declaration first, then import resolution with the document open inside
`try`/`catch` (a failure is absorbed). -/
def rootObjectLookup (env : Env) (f : SourceFile) (docPath : String)
    (objectName : String) : Option (SourceFile × String × Decl) :=
  match findDeclarationInFile f objectName with
  | some d => some (f, docPath, d)
  | none =>
    match findImportDeclaration f objectName with
    | none => none
    | some imp =>
      match resolveImportPath env.fs imp.moduleSpec with
      | none => none
      | some p =>
        match env.openDoc p with
        | .error _ => none
        | .ok impFile =>
          match findExportedDeclaration impFile objectName with
          | none => none
          | some d => some (impFile, p, d)

/-- The declared-type lookup of `resolvePropertyAccess` (lines 501-522):
local declaration first, then import resolution — here the document open is
NOT wrapped in `try`/`catch`, so a host failure propagates to the caller. -/
def typeAnnotationLookup (env : Env) (of : SourceFile) (typeName : String) :
    Except RErr (Option Decl) :=
  match findDeclarationInFile of typeName with
  | some td => .ok (some td)
  | none =>
    match findImportDeclaration of typeName with
    | none => .ok none
    | some imp =>
      match resolveImportPath env.fs imp.moduleSpec with
      | none => .ok none
      | some p =>
        match env.openDoc p with
        | .error e => .error (.ioErr e)
        | .ok impFile => .ok (findExportedDeclaration impFile typeName)

/-- The initializer fallback of `resolvePropertyAccess` (lines 533-549):
for an object-literal initializer, find the property assignment whose
identifier name equals the second dotted part and resolve its value. -/
def propInitFallback (env : Env) (fuel : Nat) (of : SourceFile) (odoc : String)
    (parts : List String) (init : Expr) : Except RErr (List String) :=
  match init with
  | .objectLit props =>
    (match parts.get? 1 with
     | none => .ok []
     | some propertyName =>
       match props.find? (fun pr =>
           match pr with
           | .assign (.ident nm) _ => nm == propertyName
           | _ => false) with
       | some (.assign _ pinit) => resolvePropertyValue env fuel pinit of odoc
       | _ => .ok [])
  | _ => .ok []

/-- Embedding of `resolvePropertyAccess` (src/resolvers/variable-resolver.ts lines
454-552): split on dots, locate the root object, prefer its declared type
annotation (extracting from the found type declaration unconditionally),
otherwise inspect the named property of its object-literal initializer. -/
def resolvePropertyAccess (env : Env) (fuel : Nat) (expression : String)
    (f : SourceFile) (docPath : String) : Except RErr (List String) :=
  let parts := splitOnDot expression
  let objectName := parts.headD ""
  match rootObjectLookup env f docPath objectName with
  | none => .ok []
  | some (of, odoc, d) =>
    match d with
    | .var vd =>
      (match vd.init with
       | none => .ok []
       | some init =>
         (match vd.type with
          | some ty =>
            (typeAnnotationLookup env of (render ty)).bind fun tdOpt =>
              match tdOpt with
              | some td => extract env fuel of (some odoc) td
              | none => propInitFallback env fuel of odoc parts init
          | none => propInitFallback env fuel of odoc parts init))
    | _ => .ok []

/-- Embedding of `resolveFromLocalScope` (lines 554-564). -/
def resolveFromLocalScope (env : Env) (fuel : Nat) (varName : String)
    (f : SourceFile) (docPath : String) : Except RErr (List String) :=
  match findDeclarationInFile f varName with
  | none => .ok []
  | some d => extract env fuel f (some docPath) d

/-- Embedding of `resolveFromImports` (lines 566-603): the whole body after the import
lookup sits inside `try`/`catch`, so every failure (document open or
extraction) is absorbed into an empty result. -/
def resolveFromImports (env : Env) (fuel : Nat) (varName : String)
    (f : SourceFile) (docPath : String) : Except RErr (List String) :=
  match findImportDeclaration f varName with
  | none => .ok []
  | some imp =>
    let inner : Except RErr (List String) :=
      match resolveImportPath env.fs imp.moduleSpec with
      | none => .ok []
      | some p =>
        match env.openDoc p with
        | .error e => .error (.ioErr e)
        | .ok impFile =>
          match findExportedDeclaration impFile varName with
          | some d => extract env fuel impFile (some p) d
          | none => .ok []
    match inner with
    | .ok v => .ok v
    | .error _ => .ok []

/-- The tail of `resolveVariable` after the property-access block (lines
94-124): the language-server providers, local-scope resolution, then
import-based resolution. -/
def resolveTailStrategies (env : Env) (fuel : Nat) (oracle : Oracle)
    (hasPosition : Bool) (varExpression : String) (f : SourceFile)
    (docPath : String) : Except RErr (List String) :=
  if hasPosition && oracle.langServer.length > 0 then
    .ok oracle.langServer
  else
    (resolveFromLocalScope env fuel varExpression f docPath).bind fun localValues =>
      if localValues.length > 0 then .ok localValues
      else resolveFromImports env fuel varExpression f docPath

/-- Embedding of `resolveVariable` (src/resolvers/variable-resolver.ts lines 17-125), the
Resolution Orchestrator: strategies in source order, returning the first
non-empty result; each early `return` of the source is a branch of the
decision chain.  `hasPosition` models whether a source position was
supplied; the position-based (language-service) strategies are the fields of
`oracle`. -/
def resolveVariable (env : Env) (fuel : Nat) (oracle : Oracle)
    (hasPosition : Bool) (varExpression : String) (f : SourceFile)
    (docPath : String) : Except RErr (List String) :=
  let hasDot := strHasChar varExpression (Char.ofNat 46)
  if hasPosition && (hasDot && oracle.unionFromPosition.length > 0) then
    .ok oracle.unionFromPosition
  else if hasPosition && oracle.languageService.length > 0 then
    .ok oracle.languageService
  else
    (resolveTypeAssertion env fuel varExpression f docPath).bind fun typeAssertionValues =>
      if typeAssertionValues.length > 0 then .ok typeAssertionValues
      else if hasDot then
        if hasPosition && oracle.hover.length > 0 then .ok oracle.hover
        else
          (resolvePropertyAccess env fuel varExpression f docPath).bind fun propertyValues =>
            if propertyValues.length > 0 then .ok propertyValues
            else resolveTailStrategies env fuel oracle hasPosition varExpression f docPath
      else resolveTailStrategies env fuel oracle hasPosition varExpression f docPath

end TP

namespace TP

/-! ### Concrete fixtures used by the claim theorems -/

/-- An oracle with every position-based strategy returning nothing. -/
def oracle0 : Oracle := ⟨[], [], [], []⟩

/-- A host whose filesystem is empty and whose document opens fail. -/
def envNone : Env := ⟨fun _ => false, fun _ => .error "unavailable"⟩

/-- A host whose filesystem reports every path and whose document opens
fail (a file that exists but cannot be read). -/
def envIoFail : Env := ⟨fun _ => true, fun _ => .error "io failure"⟩

/-- A host whose document opens always succeed (with an empty file). -/
def envOk : Env := ⟨fun _ => false, fun _ => .ok ⟨[]⟩⟩

/-- C1 fixture: the type of `type T = typeof X[keyof typeof X]`. -/
def c1Ty : TypeNode := .indexedAccess (.typeQuery "X") (.keyofType (.typeQuery "X"))

/-- C1 fixture: `const X = "s" as T`. -/
def c1X : VarDecl := ⟨"X", none, some (.asExpr (.strLit ⟨"s", .double⟩) (.typeRef "T"))⟩

/-- C1 fixture: a single file whose variable is asserted to a type alias
whose indexed-access type refers back to that variable. -/
def c1File : SourceFile := ⟨[.varStmt false [c1X], .aliasStmt false "T" c1Ty]⟩

/-- C2/C3 fixture: ten distinct values. -/
def c2Digits : List String := ["0", "1", "2", "3", "4", "5", "6", "7", "8", "9"]

/-- C2 fixture: three variables, each resolving to ten values. -/
def c2Vals : List (String × List String) := [("a", c2Digits), ("b", c2Digits), ("c", c2Digits)]

/-- C2 fixture: a template consisting of the three variables. -/
def c2Parts : List TemplatePart := [.varPart "a", .varPart "b", .varPart "c"]

/-- C4 fixture: a const object `m` with a single property `p` whose
initializer is the string literal `local`. -/
def c4File : SourceFile :=
  ⟨[.varStmt false [⟨"m", none, some (.objectLit [.assign (.ident "p") (.strLit ⟨"local", .double⟩)])⟩]]⟩

/-- C4 fixture: an oracle whose hover-based union extraction resolves the
dotted expression to a different set than the local declaration. -/
def c4Oracle : Oracle := ⟨["DE", "EN"], [], [], []⟩

/-- C5 fixture: the union type of `type T = "x" | "y"`. -/
def c5Ty : TypeNode := .unionType [.literalType ⟨"x", .double⟩, .literalType ⟨"y", .double⟩]

/-- C5 fixture: `const v = "q" as T`. -/
def c5V : VarDecl := ⟨"v", none, some (.asExpr (.strLit ⟨"q", .double⟩) (.typeRef "T"))⟩

/-- C5 fixture: the file holding `T` and `v`. -/
def c5File : SourceFile := ⟨[.aliasStmt false "T" c5Ty, .varStmt false [c5V]]⟩

/-- C6 fixture: the type of `type T = (typeof C)[keyof typeof C]`. -/
def c6Ty : TypeNode := .indexedAccess (.parenType (.typeQuery "C")) (.keyofType (.typeQuery "C"))

/-- C6 fixture: a const object `C` with properties `A` and `B` initialized
to the string literals `a` and `b`. -/
def c6CDecl : VarDecl :=
  ⟨"C", none, some (.objectLit
    [.assign (.ident "A") (.strLit ⟨"a", .double⟩),
     .assign (.ident "B") (.strLit ⟨"b", .double⟩)])⟩

/-- C6 fixture: the file holding `C` and `T`. -/
def c6File : SourceFile := ⟨[.varStmt false [c6CDecl], .aliasStmt false "T" c6Ty]⟩

/-- C7 fixture: a variable `m` declared with type annotation `T` and an
empty object-literal initializer, with `T` imported from `./t`. -/
def c7File : SourceFile :=
  ⟨[.varStmt false [⟨"m", some (.typeRef "T"), some (.objectLit [])⟩], .importStmt ["T"] "./t"]⟩

/-- C9 fixture: the arrow function `(value) => t(...)`. -/
def c9Arrow : Expr := .arrow [⟨"value", none⟩] (.call (.identifier "t") [.otherExpr])

/-- C9 fixture: `Object.values(ExchangeType).forEach((value) => t(...))`. -/
def c9Call : Expr :=
  .call
    (.propAccess (.call (.propAccess (.identifier "Object") "values") [.identifier "ExchangeType"]) "forEach")
    [c9Arrow]

/-- C9 fixture: the members of an enum `ExchangeType` whose single member
`MEXC` has the string initializer `MEXC`. -/
def c9Members : List EnumMember := [⟨.ident "MEXC", some (.strLit ⟨"MEXC", .double⟩)⟩]

/-- C9 fixture: enum plus the iteration statement. -/
def c9File : SourceFile := ⟨[.enumStmt false "ExchangeType" c9Members, .exprStmt c9Call]⟩

end TP

namespace TP

/-! ### Helper lemmas -/

/-- The cyclic fixture: extraction of the variable and of the alias each
reduce to the other at a strictly smaller recursion budget, so both exhaust
every budget. -/
theorem aux_c1_cycle (n : Nat) :
    extract envNone n c1File none (.var c1X) = .error .fuelExhausted ∧
    extract envNone n c1File none (.alias "T" c1Ty) = .error .fuelExhausted := by
  induction n with
  | zero => exact ⟨rfl, rfl⟩
  | succ n ih =>
    refine ⟨?_, ?_⟩
    · have h1 : extract envNone (n + 1) c1File none (.var c1X)
          = (extract envNone n c1File none (.alias "T" c1Ty)).bind
              (fun tv => if tv.length > 0 then .ok tv else .ok ["s"]) := rfl
      rw [h1, ih.2]
      rfl
    · have h2 : extract envNone (n + 1) c1File none (.alias "T" c1Ty)
          = extract envNone n c1File none (.var c1X) := rfl
      rw [h2]
      exact ih.1

/-- The candidate loop of the import resolver is first-match search. -/
theorem aux_tryCandidates_find (fs : String → Bool) (l : List String) :
    tryCandidates fs l = l.find? fs := by
  induction l with
  | nil => rfl
  | cons c rest ih =>
    by_cases h : fs c = true
    · simp [tryCandidates, List.find?, h]
    · simp only [Bool.not_eq_true] at h
      simp [tryCandidates, List.find?, h, ih]

/-! ### C1 -/

/-- C1 counterexample: on the self-referential chain
`const X = "s" as T; type T = typeof X[keyof typeof X]` (a variable asserted
to a type alias whose indexed-access type refers back to that variable, in
one file), `extractValuesFromDeclaration` never produces a result at any
recursion budget — in particular it does not terminate with the empty set as
the claim states. -/
theorem C1_counterexample :
    ¬ ∃ n vs, extract envNone n c1File none (.var c1X) = .ok vs := by
  rintro ⟨n, vs, h⟩
  rw [(aux_c1_cycle n).1] at h
  exact Except.noConfusion h

/-- C1 (amended): the extractor has no visited set; on the self-referential
chain `const X = "s" as T; type T = typeof X[keyof typeof X]` the mutual
recursion of `extractValuesFromDeclaration` with
`extractStringLiteralsFromType` revisits the same declarations unboundedly:
for every recursion budget the computation exhausts the budget instead of
returning. -/
theorem C1_theorem (n : Nat) :
    extract envNone n c1File none (.var c1X) = .error .fuelExhausted :=
  (aux_c1_cycle n).1

/-! ### C8 -/

/-- C8 counterexample: with an empty filesystem (no candidate exists on
disk) the resolver still returns a location for a relative specifier —
`./x` resolves to `./x.ts` — instead of returning none as the claim
states. -/
theorem C8_counterexample :
    resolveImportPath (fun _ => false) "./x" = some "./x.ts" ∧
    (some "./x.ts" : Option String) ≠ none := by
  exact ⟨rfl, by simp⟩

/-- C8 (amended): for a relative specifier the first existing candidate (in
the fixed order: script-extension substitutions or the appended extension
list) wins, and when no candidate exists the resolver returns the default
candidate (the specifier as-given when it already has a script extension,
otherwise the specifier with `.ts` appended) rather than none; for every
non-relative specifier it returns none (the code has no path-mapping
branch). -/
theorem C8_theorem (fs : String → Bool) (p : String) :
    (isRelativeSpec p = false → resolveImportPath fs p = none) ∧
    (isRelativeSpec p = true →
      resolveImportPath fs p = some (((relCandidates p).find? fs).getD (relDefault p))) := by
  constructor
  · intro h
    simp [resolveImportPath, h]
  · intro h
    rw [resolveImportPath, h]
    by_cases he : hasScriptExt p = true
    · simp only [he, if_true, if_pos rfl, relCandidates, relDefault,
        aux_tryCandidates_find]
      cases (relCandidatesExt p).find? fs with
      | none => rfl
      | some q => rfl
    · simp only [Bool.not_eq_true] at he
      simp only [he, if_true, if_pos rfl, Bool.false_eq_true, if_false, relCandidates,
        relDefault, aux_tryCandidates_find]
      cases (relCandidatesNoExt p).find? fs with
      | none => rfl
      | some q => rfl

/-- C8 witness: the theorem applied to a bare package specifier with an
empty filesystem, and to `./y.js` on a filesystem holding only `./y.tsx`
(the `.tsx` substitution is the first existing candidate). -/
theorem C8_witness :
    resolveImportPath (fun _ => false) "pkg" = none ∧
    resolveImportPath (fun s => s == "./y.tsx") "./y.js" = some "./y.tsx" := by
  constructor
  · exact (C8_theorem (fun _ => false) "pkg").1 rfl
  · have h := (C8_theorem (fun s => s == "./y.tsx") "./y.js").2 rfl
    rw [h]
    rfl

end TP

namespace TP

/-! ### C4 -/

/-- C4 counterexample: for the dotted expression `m.p` with a position, both
the oracle (hover-based union extraction) and the local Property Access
Resolver resolve — to different sets — and the orchestrator returns the
oracle result, although property-access resolution is non-empty; the
Property Access Resolver is not tried first as the claim states. -/
theorem C4_counterexample :
    resolveVariable envNone 5 c4Oracle true "m.p" c4File "main.ts" = .ok ["DE", "EN"] ∧
    resolvePropertyAccess envNone 5 "m.p" c4File "main.ts" = .ok ["local"] ∧
    (["DE", "EN"] : List String) ≠ ["local"] :=
  ⟨rfl, rfl, by decide⟩

/-- C4 (amended): for a dotted expression with a position the orchestrator
tries the oracle first — a non-empty hover-based union extraction wins
unconditionally, regardless of what property-access resolution would
return — and the Property Access Resolver is consulted only after the
position-based strategies and the type-assertion strategy all return
empty. -/
theorem C4_theorem (env : Env) (fuel : Nat) (oracle : Oracle) (expr : String)
    (f : SourceFile) (doc : String) :
    (strHasChar expr (Char.ofNat 46) = true → oracle.unionFromPosition ≠ [] →
      resolveVariable env fuel oracle true expr f doc = .ok oracle.unionFromPosition) ∧
    (∀ pv, strHasChar expr (Char.ofNat 46) = true →
      oracle.unionFromPosition = [] → oracle.languageService = [] → oracle.hover = [] →
      resolveTypeAssertion env fuel expr f doc = .ok [] →
      resolvePropertyAccess env fuel expr f doc = .ok pv → pv ≠ [] →
      resolveVariable env fuel oracle true expr f doc = .ok pv) := by
  constructor
  · intro hd hu
    rw [resolveVariable]
    simp [hd, List.length_pos, hu]
  · intro pv hd h1 h2 h3 hta hpa hpv
    rw [resolveVariable]
    simp [hd, h1, h2, h3, hta, hpa, List.length_pos, hpv, Bind.bind, Except.bind]

/-- C4 witness: the amended theorem applied to the `m.p` fixture — the
oracle result wins when it is non-empty, and the property-access result is
returned once every oracle strategy is empty. -/
theorem C4_witness :
    resolveVariable envNone 7 c4Oracle true "m.p" c4File "d.ts" = .ok ["DE", "EN"] ∧
    resolveVariable envNone 7 oracle0 true "m.p" c4File "d.ts" = .ok ["local"] := by
  constructor
  · exact (C4_theorem envNone 7 c4Oracle "m.p" c4File "d.ts").1 rfl (by decide)
  · exact (C4_theorem envNone 7 oracle0 "m.p" c4File "d.ts").2 ["local"]
      rfl rfl rfl rfl rfl rfl (by decide)

/-! ### C9 counterexample -/

/-- C9 counterexample: in a file containing an enum `ExchangeType` with
value set `MEXC` and the iteration
`Object.values(ExchangeType).forEach((value) => ...)`, the pre-order
declaration sequence does contain the parameter `value`, but
`findDeclarationInFile` returns none for it (the finder matches only
variables, enums and type aliases), the orchestrator resolves `value` to the
empty set — not to the enum value set `["MEXC"]` as the claim states — and
the refactored extractor maps an annotation-free parameter to the empty
set. -/
theorem C9_counterexample :
    findDeclarationInFile c9File "value" = none ∧
    declOrder c9File = [.enumD "ExchangeType" c9Members, .param ⟨"value", none⟩] ∧
    resolveVariable envNone 5 oracle0 false "value" c9File "demo.ts" = .ok [] ∧
    extractFromParam ⟨"value", none⟩ = [] ∧
    enumValues c9Members = ["MEXC"] ∧
    ([] : List String) ≠ ["MEXC"] :=
  ⟨rfl, rfl, rfl, rfl, rfl, by decide⟩

end TP

namespace TP

/-! ### C2 / C3 -/

/-- Length of a flat map whose pieces all have the same length. -/
theorem aux_flatMap_const_length {α β : Type} (l : List α) (g : α → List β) (k : Nat)
    (h : ∀ x ∈ l, (g x).length = k) : (l.flatMap g).length = l.length * k := by
  induction l with
  | nil => simp
  | cons a rest ih =>
    simp only [List.flatMap_cons, List.length_append, List.length_cons,
      h a (by simp), ih (fun x hx => h x (by simp [hx])), Nat.succ_mul]
    omega

/-- The recursion materializes exactly the branch product many strings,
whatever prefix it starts from. -/
theorem aux_genAll_length (vals : List (String × List String)) :
    ∀ parts cur, (genAll vals parts cur).length = branchProduct vals parts := by
  intro parts
  induction parts with
  | nil => intro cur; rfl
  | cons p rest ih =>
    intro cur
    cases p with
    | staticPart s => simpa [genAll, branchProduct] using ih (cur ++ s)
    | varPart v =>
      cases hv : lookupVals vals v with
      | none => simp [genAll, branchProduct, hv, ih]
      | some values =>
        by_cases hl : values.length > 0
        · simp only [genAll, branchProduct, hv, hl, if_true]
          exact aux_flatMap_const_length _ _ _ (fun x _ => ih (cur ++ x))
        · simp [genAll, branchProduct, hv, hl, ih]

/-- Every branching factor is at most ten, so the branch product is at most
ten to the number of variable parts. -/
theorem aux_branchProduct_le (vals : List (String × List String)) :
    ∀ parts, branchProduct vals parts ≤ 10 ^ varCount parts := by
  intro parts
  induction parts with
  | nil => simp [branchProduct, varCount]
  | cons p rest ih =>
    cases p with
    | staticPart s => simpa [branchProduct, varCount] using ih
    | varPart v =>
      have hpow : (10 : Nat) ^ (1 + varCount rest) = 10 * 10 ^ varCount rest := by
        rw [pow_add, pow_one]
      cases hv : lookupVals vals v with
      | none =>
        simp only [branchProduct, varCount, hv, hpow]
        exact le_trans ih (Nat.le_mul_of_pos_left _ (by norm_num))
      | some values =>
        by_cases hl : values.length > 0
        · simp only [branchProduct, varCount, hv, hl, if_true, hpow]
          refine Nat.mul_le_mul ?_ ih
          rw [List.length_take]
          exact min_le_left _ _
        · simp only [branchProduct, varCount, hv, hl, if_false, hpow]
          exact le_trans ih (Nat.le_mul_of_pos_left _ (by norm_num))

/-- The branch product is always positive: a resolved variable branches on a
non-empty ten-capped list and every other part contributes factor one. -/
theorem aux_branchProduct_pos (vals : List (String × List String)) :
    ∀ parts, 0 < branchProduct vals parts := by
  intro parts
  induction parts with
  | nil => simp [branchProduct]
  | cons p rest ih =>
    cases p with
    | staticPart s => simpa [branchProduct] using ih
    | varPart v =>
      cases hv : lookupVals vals v with
      | none => simpa [branchProduct, hv] using ih
      | some values =>
        by_cases hl : values.length > 0
        · simp only [branchProduct, hv, hl, if_true]
          refine Nat.mul_pos ?_ ih
          rw [List.length_take]
          omega
        · simpa [branchProduct, hv, hl] using ih

/-- C2 counterexample: with three variables each resolving to ten values the
recursion materializes all one thousand combinations in its internal results
list before `slice(0, 20)` trims the output to twenty — the internal list
exceeds the output bound, contradicting the claimed streaming behaviour. -/
theorem C2_counterexample :
    (genAll c2Vals c2Parts "").length = 1000 ∧
    (generateCombinations c2Parts c2Vals).length = 20 ∧
    ¬ (1000 ≤ 20) := by
  have h := aux_genAll_length c2Vals c2Parts ""
  have hbp : branchProduct c2Vals c2Parts = 1000 := rfl
  refine ⟨by rw [h, hbp], ?_, by decide⟩
  have hgc : generateCombinations c2Parts c2Vals = (genAll c2Vals c2Parts "").take 20 := rfl
  rw [hgc, List.length_take, h, hbp]
  decide

/-- C2 (amended): the generator is generate-then-slice, not streaming: the
internal results list holds exactly the branch product many strings (one
thousand for three ten-valued variables) and only then is truncated to the
first twenty; memory stays bounded only because each variable branches on at
most its first ten values, so the internal list is at most ten to the number
of variable parts even when a variable resolved to ten thousand values. -/
theorem C2_theorem (parts : List TemplatePart) (vals : List (String × List String)) :
    (genAll vals parts "").length = branchProduct vals parts ∧
    branchProduct vals parts ≤ 10 ^ varCount parts ∧
    generateCombinations parts vals = (genAll vals parts "").take 20 :=
  ⟨aux_genAll_length vals parts "", aux_branchProduct_le vals parts, rfl⟩

/-- The recursion from prefix `cur` yields the specification-level
combinations, each prefixed by `cur`. -/
theorem aux_genAll_eq_combos (vals : List (String × List String)) :
    ∀ parts cur, genAll vals parts cur = (combos vals parts).map (fun t => cur ++ t) := by
  intro parts
  induction parts with
  | nil => intro cur; simp [genAll, combos]
  | cons p rest ih =>
    intro cur
    cases p with
    | staticPart s =>
      simp only [genAll, combos, ih (cur ++ s), List.map_map]
      exact List.map_congr_left fun t _ => String.append_assoc cur s t
    | varPart v =>
      cases hv : lookupVals vals v with
      | none =>
        simp only [genAll, combos, hv, ih (cur ++ placeholder v), List.map_map]
        exact List.map_congr_left fun t _ => String.append_assoc cur (placeholder v) t
      | some values =>
        by_cases hl : values.length > 0
        · simp only [genAll, combos, hv, hl, if_true, List.map_flatMap]
          refine congrArg (List.flatMap _) (funext fun x => ?_)
          simp only [ih (cur ++ x), List.map_map]
          exact List.map_congr_left fun t _ => String.append_assoc cur x t
        · simp only [genAll, combos, hv, hl, if_false, ih (cur ++ placeholder v), List.map_map]
          exact List.map_congr_left fun t _ => String.append_assoc cur (placeholder v) t

/-- C3: `generateCombinations` returns the first twenty strings of the
specification-level expansion — leftmost variable outermost (varying
slowest), each resolved variable branching on at most its first ten values
in original order, the brace-wrapped expression text substituted for an
unresolved variable — and the result is never empty (no site is dropped) and never
longer than twenty. -/
theorem C3_theorem (parts : List TemplatePart) (vals : List (String × List String)) :
    generateCombinations parts vals = (combos vals parts).take 20 ∧
    combos vals parts ≠ [] ∧
    generateCombinations parts vals ≠ [] ∧
    (generateCombinations parts vals).length ≤ 20 := by
  have hcl : (combos vals parts).length = branchProduct vals parts := by
    have h1 := aux_genAll_length vals parts ""
    rw [aux_genAll_eq_combos vals parts ""] at h1
    simpa using h1
  have hpos := aux_branchProduct_pos vals parts
  have heq : generateCombinations parts vals = (combos vals parts).take 20 := by
    have h2 : generateCombinations parts vals = (genAll vals parts "").take 20 := rfl
    rw [h2, aux_genAll_eq_combos vals parts ""]
    have hmap : (combos vals parts).map (fun t => "" ++ t) = combos vals parts := by
      have := List.map_congr_left (l := combos vals parts)
        (f := fun t => "" ++ t) (g := id) (fun t _ => String.empty_append t)
      simpa using this
    rw [hmap]
  refine ⟨heq, ?_, ?_, ?_⟩
  · exact List.ne_nil_of_length_pos (by omega)
  · rw [heq]
    refine List.ne_nil_of_length_pos ?_
    rw [List.length_take]
    omega
  · rw [heq, List.length_take]
    exact min_le_left _ _

end TP

namespace TP

/-! ### C5 -/

/-- C5: for `const v = "q" as T` (any quote style, any asserted type
expression `T`), when the local-then-import type lookup finds a declaration
for the asserted type text and extracting it succeeds, the variable resolves
to the type's value set whenever that set is non-empty, and to the asserted
literal `q` only when the type's set is empty; when the type lookup fails
altogether, the asserted literal is returned. -/
theorem C5_theorem (env : Env) (fuel : Nat) (f : SourceFile) (doc : Option String)
    (vname q : String) (qk : QuoteKind) (vt : Option TypeNode) (ty : TypeNode) :
    (∀ tf nd td vs,
      findTypeDeclWithImports env f doc (render ty) = some (tf, nd, td) →
      extract env fuel tf doc td = .ok vs →
      extract env (fuel + 1) f doc (.var ⟨vname, vt, some (.asExpr (.strLit ⟨q, qk⟩) ty)⟩)
        = .ok (if vs.length > 0 then vs else [q])) ∧
    (findTypeDeclWithImports env f doc (render ty) = none →
      extract env (fuel + 1) f doc (.var ⟨vname, vt, some (.asExpr (.strLit ⟨q, qk⟩) ty)⟩)
        = .ok [q]) := by
  have hstep : extract env (fuel + 1) f doc (.var ⟨vname, vt, some (.asExpr (.strLit ⟨q, qk⟩) ty)⟩)
      = (match findTypeDeclWithImports env f doc (render ty) with
         | some (tf, _, td) =>
           (extract env fuel tf doc td).bind fun tv =>
             if tv.length > 0 then .ok tv else .ok [q]
         | none => .ok [q]) := rfl
  constructor
  · intro tf nd td vs h1 h2
    rw [hstep]
    simp only [h1]
    show (extract env fuel tf doc td).bind
        (fun tv => if tv.length > 0 then .ok tv else .ok [q])
      = .ok (if vs.length > 0 then vs else [q])
    rw [h2]
    by_cases hl : vs.length > 0
    · simp [hl, Bind.bind, Except.bind]
    · simp [hl, Bind.bind, Except.bind]
  · intro h1
    rw [hstep]
    simp only [h1]

/-- C5 witness: the theorem applied to the file
`type T = "x" | "y"; const v = "q" as T` — resolution returns the type's
set, not the asserted literal. -/
theorem C5_witness :
    extract envNone 2 c5File none (.var c5V) = .ok ["x", "y"] ∧
    (["x", "y"] : List String) ≠ ["q"] := by
  constructor
  · have h := (C5_theorem envNone 1 c5File none "v" "q" .double none (.typeRef "T")).1
      c5File none (.alias "T" c5Ty) ["x", "y"] rfl rfl
    simpa [c5V] using h
  · decide

/-! ### C6 -/

/-- A declaration found by `findConstObjectDeclaration` satisfies its
initializer test. -/
theorem aux_findConstObject_shape (f : SourceFile) (X : String) (od : VarDecl)
    (h : findConstObjectDeclaration f X = some od) : constObjInit od.init = true := by
  unfold findConstObjectDeclaration at h
  obtain ⟨s, _, hsome⟩ := List.exists_of_findSome?_eq_some h
  cases s with
  | varStmt e decls =>
    simp only at hsome
    have hp := List.find?_some hsome
    simp only [Bool.and_eq_true] at hp
    exact hp.2
  | enumStmt e nm members => exact Option.noConfusion hsome
  | aliasStmt e nm ty => exact Option.noConfusion hsome
  | importStmt ns m => exact Option.noConfusion hsome
  | exportStmt ns => exact Option.noConfusion hsome
  | exprStmt e => exact Option.noConfusion hsome
  | otherStmt => exact Option.noConfusion hsome

/-- Extracting a const-object declaration yields its key set (the object
branch is the first case hit and never recurses). -/
theorem aux_constObject_extract (env : Env) (n : Nat) (f : SourceFile)
    (doc : Option String) (vd : VarDecl) (h : constObjInit vd.init = true) :
    extract env (n + 1) f doc (.var vd) = .ok (constObjectKeys vd) := by
  obtain ⟨vn, vt, vi⟩ := vd
  cases vi with
  | none => simp [constObjInit] at h
  | some e =>
    cases e with
    | objectLit props => rfl
    | asExpr inner ty =>
      cases inner with
      | objectLit props => rfl
      | asExpr e2 ty2 => simp [constObjInit] at h
      | strLit l => simp [constObjInit] at h
      | identifier nm => simp [constObjInit] at h
      | arrow ps body => simp [constObjInit] at h
      | call c as2 => simp [constObjInit] at h
      | propAccess o nm => simp [constObjInit] at h
      | otherExpr => simp [constObjInit] at h
    | strLit l => simp [constObjInit] at h
    | identifier nm => simp [constObjInit] at h
    | arrow ps body => simp [constObjInit] at h
    | call c as2 => simp [constObjInit] at h
    | propAccess o nm => simp [constObjInit] at h
    | otherExpr => simp [constObjInit] at h

/-- C6: for every type alias whose rendered type text matches the
`(typeof X)[keyof typeof X]` pattern, where a const object `X` with an
object-literal (or object-literal-as-const) initializer exists in the same
file and has a non-empty key set, the extractor returns `X`'s own property
names in declaration order. -/
theorem C6_theorem (env : Env) (fuel : Nat) (f : SourceFile) (doc : Option String)
    (aliasName X : String) (ty : TypeNode) (od : VarDecl)
    (hm : typeofPatternMatch (render ty) = some X)
    (hc : findConstObjectDeclaration f X = some od)
    (hk : constObjectKeys od ≠ []) :
    extract env (fuel + 2) f doc (.alias aliasName ty) = .ok (constObjectKeys od) := by
  have hstep : extract env (fuel + 2) f doc (.alias aliasName ty)
      = (match typeofPatternMatch (render ty) with
         | some objectName =>
           (match findConstObjectDeclaration f objectName with
            | some od2 =>
              (extract env (fuel + 1) f doc (.var od2)).bind fun ov =>
                if ov.length > 0 then .ok ov
                else extractStringLiteralsFromType ty f
                  (fun d2 f2 doc2 => extract env (fuel + 1) f2 doc2 d2)
            | none => extractStringLiteralsFromType ty f
                (fun d2 f2 doc2 => extract env (fuel + 1) f2 doc2 d2))
         | none => extractStringLiteralsFromType ty f
             (fun d2 f2 doc2 => extract env (fuel + 1) f2 doc2 d2)) := rfl
  rw [hstep]
  simp only [hm, hc]
  rw [aux_constObject_extract env fuel f doc od (aux_findConstObject_shape f X od hc)]
  have hl : (constObjectKeys od).length > 0 := List.length_pos.mpr hk
  simp [hl, Bind.bind, Except.bind]

/-- C6 witness: the theorem applied to the const object `C` with keys `A`
and `B` and to `type T = (typeof C)[keyof typeof C]` — the key set, not the
value set, is returned. -/
theorem C6_witness :
    extract envNone 2 c6File none (.alias "T" c6Ty) = .ok ["A", "B"] ∧
    (["A", "B"] : List String) ≠ ["a", "b"] := by
  constructor
  · exact C6_theorem envNone 0 c6File none "T" "C" c6Ty c6CDecl rfl rfl (by decide)
  · decide

/-! ### C10 -/

/-- Double-quote stripping distributes over appending. -/
theorem aux_stripDQ_append (x y : String) : stripDQ (x ++ y) = stripDQ x ++ stripDQ y := by
  unfold stripDQ
  rw [String.data_append, List.filter_append]
  rfl

/-- A string without double-quote characters is unchanged by stripping. -/
theorem aux_stripDQ_noDQ (s : String) (h : s.data.all (fun c => c ≠ '"') = true) :
    stripDQ s = s := by
  unfold stripDQ
  rw [List.filter_eq_self.mpr (List.all_eq_true.mp h)]

/-- Stripping a double-quoted source slice yields the bare text. -/
theorem aux_stripDQ_double (a : String) (ha : a.data.all (fun c => c ≠ '"') = true) :
    stripDQ ("\"" ++ a ++ "\"") = a := by
  rw [aux_stripDQ_append, aux_stripDQ_append, aux_stripDQ_noDQ a ha]
  have h1 : stripDQ "\"" = "" := rfl
  rw [h1, String.empty_append, String.append_empty]

/-- Stripping a single-quoted source slice leaves the quotes in place. -/
theorem aux_stripDQ_single (b : String) (hb : b.data.all (fun c => c ≠ '"') = true) :
    stripDQ (squote ++ b ++ squote) = squote ++ b ++ squote := by
  rw [aux_stripDQ_append, aux_stripDQ_append, aux_stripDQ_noDQ b hb]
  have h1 : stripDQ squote = squote := rfl
  rw [h1]

/-- C10: quote stripping removes only double-quote characters — a
single-quoted union member or object-literal property name keeps its single
quotes in the returned values, while double-quoted and identifier names come
back bare.  Shown for the union extraction used by the type-alias path, the
refactored `extractFromTypeNode`, and object-literal key extraction. -/
theorem C10_theorem (a b c : String) (f : SourceFile)
    (cb : Decl → SourceFile → Option String → Except RErr (List String))
    (ha : a.data.all (fun ch => ch ≠ '"') = true)
    (hb : b.data.all (fun ch => ch ≠ '"') = true)
    (hc : c.data.all (fun ch => ch ≠ '"') = true) :
    extractStringLiteralsFromType
        (.unionType [.literalType ⟨a, .double⟩, .literalType ⟨b, .single⟩]) f cb
      = .ok [a, squote ++ b ++ squote] ∧
    extractFromTypeNode (.unionType [.literalType ⟨a, .double⟩, .literalType ⟨b, .single⟩])
      = [a, squote ++ b ++ squote] ∧
    objectKeys [.assign (.ident c) .otherExpr,
                .assign (.strName ⟨a, .double⟩) .otherExpr,
                .assign (.strName ⟨b, .single⟩) .otherExpr]
      = [c, a, squote ++ b ++ squote] := by
  have hu : unionLiteralTexts [.literalType ⟨a, .double⟩, .literalType ⟨b, .single⟩]
      = [stripDQ ("\"" ++ a ++ "\""), stripDQ (squote ++ b ++ squote)] := rfl
  have hresult : unionLiteralTexts [.literalType ⟨a, .double⟩, .literalType ⟨b, .single⟩]
      = [a, squote ++ b ++ squote] := by
    rw [hu, aux_stripDQ_double a ha, aux_stripDQ_single b hb]
  refine ⟨?_, ?_, ?_⟩
  · show Except.ok (unionLiteralTexts [.literalType ⟨a, .double⟩, .literalType ⟨b, .single⟩])
      = .ok [a, squote ++ b ++ squote]
    rw [hresult]
  · show unionLiteralTexts [.literalType ⟨a, .double⟩, .literalType ⟨b, .single⟩]
      = [a, squote ++ b ++ squote]
    exact hresult
  · show [stripDQ c, stripDQ ("\"" ++ a ++ "\""), stripDQ (squote ++ b ++ squote)]
      = [c, a, squote ++ b ++ squote]
    rw [aux_stripDQ_noDQ c hc, aux_stripDQ_double a ha, aux_stripDQ_single b hb]

/-- C10 witness: the theorem applied to a union of a double-quoted and a
single-quoted literal and to an object literal with an identifier key, a
double-quoted key and a single-quoted key — the single-quoted entries keep
their quotes. -/
theorem C10_witness :
    extractFromTypeNode (.unionType [.literalType ⟨"a", .double⟩, .literalType ⟨"b", .single⟩])
      = ["a", squote ++ "b" ++ squote] ∧
    objectKeys [.assign (.ident "p") .otherExpr,
                .assign (.strName ⟨"a", .double⟩) .otherExpr,
                .assign (.strName ⟨"b", .single⟩) .otherExpr]
      = ["p", "a", squote ++ "b" ++ squote] := by
  have h := C10_theorem "a" "b" "p" ⟨[]⟩ (fun _ _ _ => .ok [])
    (by decide) (by decide) (by decide)
  exact ⟨h.2.1, h.2.2⟩

end TP

namespace TP

/-! ### C7 -/

/-- Case analysis of a failing `Except` bind. -/
theorem aux_bind_error {α β : Type} {x : Except RErr α} {g : α → Except RErr β} {e : RErr}
    (h : x.bind g = .error e) : x = .error e ∨ ∃ a, x = .ok a ∧ g a = .error e := by
  cases x with
  | error e2 =>
    left
    have h2 : (Except.error e2 : Except RErr β) = .error e := h
    injection h2 with h3
    rw [h3]
  | ok a =>
    right
    exact ⟨a, rfl, h⟩

/-- The function `extractStringLiteralsFromType` fails only when its extraction callback
fails. -/
theorem aux_eslft_err (ty : TypeNode) (f : SourceFile)
    (cb : Decl → SourceFile → Option String → Except RErr (List String))
    (hcb : ∀ d f2 doc2 e, cb d f2 doc2 = .error e → e = .fuelExhausted) :
    ∀ e, extractStringLiteralsFromType ty f cb = .error e → e = .fuelExhausted := by
  intro e h
  unfold extractStringLiteralsFromType at h
  split at h
  · exact Except.noConfusion h
  · split at h
    · exact hcb _ _ _ _ h
    · exact Except.noConfusion h
  · exact Except.noConfusion h

/-- The function `extractValuesFromDeclaration` never propagates a host failure — every
document open inside it sits behind `try`/`catch` — so its only failure is
recursion-budget exhaustion. -/
theorem aux_extract_err (env : Env) : ∀ n f doc d e,
    extract env n f doc d = .error e → e = .fuelExhausted := by
  intro n
  induction n with
  | zero =>
    intro f doc d e h
    have h2 : (Except.error .fuelExhausted : Except RErr (List String)) = .error e := h
    injection h2 with h3
    exact h3.symm
  | succ n ih =>
    intro f doc d e h
    simp only [extract] at h
    repeat' split at h
    all_goals try exact Except.noConfusion h
    all_goals try exact aux_eslft_err _ _ _ (fun d2 f2 doc2 e2 hh => ih f2 doc2 d2 e2 hh) _ h
    all_goals
      rcases aux_bind_error h with h1 | ⟨a, h1, h2⟩
    all_goals try exact ih _ _ _ _ h1
    all_goals split at h2
    all_goals try exact Except.noConfusion h2
    all_goals exact aux_eslft_err _ _ _ (fun d2 f2 doc2 e2 hh => ih f2 doc2 d2 e2 hh) _ h2

/-- The function `resolveTypeAssertion` fails only through extraction. -/
theorem aux_rta_err (env : Env) (fuel : Nat) (expr : String) (f : SourceFile)
    (doc : String) (e : RErr)
    (h : resolveTypeAssertion env fuel expr f doc = .error e) : e = .fuelExhausted := by
  unfold resolveTypeAssertion at h
  repeat' split at h
  all_goals try exact Except.noConfusion h
  all_goals exact aux_extract_err env _ _ _ _ _ h

/-- The function `resolvePropertyValue` fails only through extraction. -/
theorem aux_rpv_err (env : Env) (fuel : Nat) (pinit : Expr) (f : SourceFile)
    (doc : String) (e : RErr)
    (h : resolvePropertyValue env fuel pinit f doc = .error e) : e = .fuelExhausted := by
  unfold resolvePropertyValue at h
  repeat' split at h
  all_goals try exact Except.noConfusion h
  all_goals try exact aux_extract_err env _ _ _ _ _ h
  all_goals
    rcases aux_bind_error h with h1 | ⟨a, h1, h2⟩
  all_goals try exact aux_extract_err env _ _ _ _ _ h1
  all_goals split at h2
  all_goals exact Except.noConfusion h2

/-- The object-literal fallback of property access fails only through
extraction. -/
theorem aux_pif_err (env : Env) (fuel : Nat) (of : SourceFile) (odoc : String)
    (parts : List String) (init : Expr) (e : RErr)
    (h : propInitFallback env fuel of odoc parts init = .error e) : e = .fuelExhausted := by
  unfold propInitFallback at h
  repeat' split at h
  all_goals try exact Except.noConfusion h
  all_goals exact aux_rpv_err env _ _ _ _ _ h

/-- When document opens never fail, the declared-type lookup of
`resolvePropertyAccess` — the one site whose open is not wrapped in
`try`/`catch` — cannot fail either. -/
theorem aux_tal_err (env : Env) (hEnv : ∀ p, ∃ sf, env.openDoc p = .ok sf)
    (of : SourceFile) (tn : String) (e : RErr)
    (h : typeAnnotationLookup env of tn = .error e) : False := by
  unfold typeAnnotationLookup at h
  repeat' split at h
  all_goals try exact Except.noConfusion h
  rename_i path heqip xs es heqod
  obtain ⟨sf, hsf⟩ := hEnv path
  rw [hsf] at heqod
  exact Except.noConfusion heqod

/-- With reliable document opens, `resolvePropertyAccess` fails only through
extraction. -/
theorem aux_rpa_err (env : Env) (hEnv : ∀ p, ∃ sf, env.openDoc p = .ok sf)
    (fuel : Nat) (expr : String) (f : SourceFile) (doc : String) (e : RErr)
    (h : resolvePropertyAccess env fuel expr f doc = .error e) : e = .fuelExhausted := by
  simp only [resolvePropertyAccess] at h
  repeat' split at h
  all_goals try exact Except.noConfusion h
  all_goals try exact aux_pif_err env _ _ _ _ _ _ h
  all_goals
    rcases aux_bind_error h with h1 | ⟨a, h1, h2⟩
  all_goals try exact absurd h1 (fun hh => aux_tal_err env hEnv _ _ _ hh)
  all_goals split at h2
  all_goals try exact aux_extract_err env _ _ _ _ _ h2
  all_goals exact aux_pif_err env _ _ _ _ _ _ h2

/-- The function `resolveFromLocalScope` fails only through extraction. -/
theorem aux_rls_err (env : Env) (fuel : Nat) (vn : String) (f : SourceFile)
    (doc : String) (e : RErr)
    (h : resolveFromLocalScope env fuel vn f doc = .error e) : e = .fuelExhausted := by
  unfold resolveFromLocalScope at h
  split at h
  · exact Except.noConfusion h
  · exact aux_extract_err env _ _ _ _ _ h

/-- The function `resolveFromImports` never fails: its whole body is caught. -/
theorem aux_rfi_ne (env : Env) (fuel : Nat) (vn : String) (f : SourceFile)
    (doc : String) (e : RErr) : resolveFromImports env fuel vn f doc ≠ .error e := by
  intro h
  simp only [resolveFromImports] at h
  repeat' split at h
  all_goals exact Except.noConfusion h

/-- The tail strategies fail only through extraction. -/
theorem aux_tail_err (env : Env) (fuel : Nat) (oracle : Oracle) (hasPos : Bool)
    (expr : String) (f : SourceFile) (doc : String) (e : RErr)
    (h : resolveTailStrategies env fuel oracle hasPos expr f doc = .error e) :
    e = .fuelExhausted := by
  unfold resolveTailStrategies at h
  split at h
  · exact Except.noConfusion h
  · rcases aux_bind_error h with h1 | ⟨a, h1, h2⟩
    · exact aux_rls_err env _ _ _ _ _ h1
    · split at h2
      · exact Except.noConfusion h2
      · exact absurd h2 (aux_rfi_ne env _ _ _ _ _)

/-- With reliable document opens, the orchestrator fails only through
recursion-budget exhaustion. -/
theorem aux_rv_err (env : Env) (hEnv : ∀ p, ∃ sf, env.openDoc p = .ok sf)
    (fuel : Nat) (oracle : Oracle) (hasPos : Bool) (expr : String) (f : SourceFile)
    (doc : String) (e : RErr)
    (h : resolveVariable env fuel oracle hasPos expr f doc = .error e) :
    e = .fuelExhausted := by
  simp only [resolveVariable] at h
  repeat' split at h
  all_goals try exact Except.noConfusion h
  all_goals
    rcases aux_bind_error h with h1 | ⟨a1, h1, h2⟩
  all_goals try exact aux_rta_err env _ _ _ _ _ h1
  all_goals repeat' split at h2
  all_goals try exact Except.noConfusion h2
  all_goals try exact aux_tail_err env _ _ _ _ _ _ _ h2
  all_goals
    rcases aux_bind_error h2 with h3 | ⟨a2, h3, h4⟩
  all_goals try exact aux_rpa_err env hEnv _ _ _ _ _ h3
  all_goals repeat' split at h4
  all_goals try exact Except.noConfusion h4
  all_goals exact aux_tail_err env _ _ _ _ _ _ _ h4

/-- C7 counterexample: the Resolution Orchestrator can raise.  On a
variable `m` whose declared type `T` is imported from `./t`, when the
imported file
exists but opening it fails, the failure propagates out of the declared-type
branch of `resolvePropertyAccess` (the one document open not wrapped in
`try`/`catch`) and `resolveVariable` returns the error instead of an empty
set. -/
theorem C7_counterexample :
    resolveVariable envIoFail 5 oracle0 false "m.x" c7File "main.ts"
      = .error (.ioErr "io failure") := rfl

/-- C7 (amended): exception isolation holds everywhere except for document
opens in the declared-type branch of property access: whenever document
opens never fail, the orchestrator never raises a host error — its result is
a value (empty set as worst case) unless the recursion budget runs out. -/
theorem C7_theorem (env : Env) (fuel : Nat) (oracle : Oracle) (hasPos : Bool)
    (expr : String) (f : SourceFile) (doc : String)
    (hEnv : ∀ p, ∃ sf, env.openDoc p = .ok sf) :
    (∃ vs, resolveVariable env fuel oracle hasPos expr f doc = .ok vs) ∨
    resolveVariable env fuel oracle hasPos expr f doc = .error .fuelExhausted := by
  cases hres : resolveVariable env fuel oracle hasPos expr f doc with
  | ok vs => exact Or.inl ⟨vs, rfl⟩
  | error e =>
    right
    rw [aux_rv_err env hEnv fuel oracle hasPos expr f doc e hres]

/-- C7 witness: the amended theorem on a host whose opens always succeed —
the orchestrator returns a value. -/
theorem C7_witness :
    (∃ vs, resolveVariable envOk 3 oracle0 false "x" ⟨[]⟩ "d.ts" = .ok vs) ∨
    resolveVariable envOk 3 oracle0 false "x" ⟨[]⟩ "d.ts" = .error .fuelExhausted :=
  C7_theorem envOk 3 oracle0 false "x" ⟨[]⟩ "d.ts" (fun _ => ⟨⟨[]⟩, rfl⟩)

end TP

namespace TP

/-! ### C9 -/

/-- Parameter nodes never satisfy the finder's match. -/
theorem aux_find?_params_none (n : String) (params : List Param) :
    (params.map Decl.param).find? (v1Candidate n) = none := by
  rw [List.find?_eq_none]
  intro x hx
  obtain ⟨p, hp, rfl⟩ := List.mem_map.mp hx
  simp [v1Candidate]

mutual
/-- The expression walk of the finder is first-match search over the
pre-order declaration sequence. -/
theorem aux_findInExpr_eq (n : String) (e : Expr) :
    findInExpr n e = (ordExpr e).find? (v1Candidate n) := by
  cases e with
  | objectLit props =>
    simpa [findInExpr, ordExpr] using aux_findInProps_eq n props
  | asExpr e2 ty =>
    simpa [findInExpr, ordExpr] using aux_findInExpr_eq n e2
  | strLit l => rfl
  | identifier nm => rfl
  | arrow params body =>
    simp only [findInExpr, ordExpr]
    rw [List.find?_append, aux_find?_params_none n params]
    simpa using aux_findInExpr_eq n body
  | call callee args =>
    simp only [findInExpr, ordExpr]
    rw [List.find?_append, aux_findInExpr_eq n callee, aux_findInExprs_eq n args]
  | propAccess obj nm =>
    simpa [findInExpr, ordExpr] using aux_findInExpr_eq n obj
  | otherExpr => rfl

/-- Expression-list version. -/
theorem aux_findInExprs_eq (n : String) (es : List Expr) :
    findInExprs n es = (ordExprs es).find? (v1Candidate n) := by
  cases es with
  | nil => rfl
  | cons e rest =>
    simp only [findInExprs, ordExprs]
    rw [List.find?_append, aux_findInExpr_eq n e, aux_findInExprs_eq n rest]

/-- Object-member version. -/
theorem aux_findInProps_eq (n : String) (ps : List ObjProp) :
    findInProps n ps = (ordProps ps).find? (v1Candidate n) := by
  cases ps with
  | nil => rfl
  | cons p rest =>
    cases p with
    | assign nm init =>
      simp only [findInProps, ordProps]
      rw [List.find?_append, aux_findInExpr_eq n init, aux_findInProps_eq n rest]
    | otherProp =>
      simpa [findInProps, ordProps] using aux_findInProps_eq n rest
end

/-- Optional-initializer version. -/
theorem aux_findInInit_eq (n : String) (oi : Option Expr) :
    findInInit n oi = (ordInit oi).find? (v1Candidate n) := by
  cases oi with
  | none => rfl
  | some e => simpa [findInInit, ordInit] using aux_findInExpr_eq n e

/-- Declaration-list version: the variable node is tested before its
initializer is walked. -/
theorem aux_findInDecls_eq (n : String) (ds : List VarDecl) :
    findInDecls n ds = (ordDecls ds).find? (v1Candidate n) := by
  induction ds with
  | nil => rfl
  | cons d rest ih =>
    by_cases h : (d.name == n) = true
    · rw [ordDecls, List.find?_cons_of_pos _ (by simpa [v1Candidate] using h)]
      simp [findInDecls, h]
    · rw [ordDecls, List.find?_cons_of_neg _ (by simpa [v1Candidate] using h),
        List.find?_append]
      simp only [Bool.not_eq_true] at h
      simp [findInDecls, h, aux_findInInit_eq, ih]
end TP

namespace TP

/-- Enum-member version. -/
theorem aux_findInMembers_eq (n : String) (ms : List EnumMember) :
    findInMembers n ms = (ordMembers ms).find? (v1Candidate n) := by
  induction ms with
  | nil => rfl
  | cons m rest ih =>
    simp only [findInMembers, ordMembers]
    rw [List.find?_append, aux_findInInit_eq n m.init, ih]

/-- Statement version. -/
theorem aux_findInStmt_eq (n : String) (s : Statement) :
    findInStmt n s = (ordStmt s).find? (v1Candidate n) := by
  cases s with
  | varStmt e decls => simpa [findInStmt, ordStmt] using aux_findInDecls_eq n decls
  | enumStmt e nm members =>
    by_cases h : (nm == n) = true
    · rw [ordStmt, List.find?_cons_of_pos _ (by simpa [v1Candidate] using h)]
      simp [findInStmt, h]
    · rw [ordStmt, List.find?_cons_of_neg _ (by simpa [v1Candidate] using h)]
      simp only [Bool.not_eq_true] at h
      simp [findInStmt, h, aux_findInMembers_eq]
  | aliasStmt e nm ty =>
    by_cases h : (nm == n) = true
    · rw [ordStmt, List.find?_cons_of_pos _ (by simpa [v1Candidate] using h)]
      simp [findInStmt, h]
    · rw [ordStmt, List.find?_cons_of_neg _ (by simpa [v1Candidate] using h)]
      simp only [Bool.not_eq_true] at h
      simp [findInStmt, h]
  | importStmt ns m => rfl
  | exportStmt ns => rfl
  | exprStmt e => simpa [findInStmt, ordStmt] using aux_findInExpr_eq n e
  | otherStmt => rfl

/-- Statement-list version. -/
theorem aux_findInStmts_eq (n : String) (ss : List Statement) :
    findInStmts n ss = (ordStmts ss).find? (v1Candidate n) := by
  induction ss with
  | nil => rfl
  | cons s rest ih =>
    simp only [findInStmts, ordStmts]
    rw [List.find?_append, aux_findInStmt_eq n s, ih]

/-- C9 (amended): `findDeclarationInFile` is exactly first-match search over
the whole-file pre-order declaration sequence restricted to variable
declarations, enumerations and type aliases — parameters occur in the
pre-order sequence but are never matched, so a parameter bound by an
`Object.values(E).forEach(param)` call is never found and the static path
resolves it to the empty set rather than to `E`'s value set. -/
theorem C9_theorem (f : SourceFile) (n : String) :
    findDeclarationInFile f n = (declOrder f).find? (v1Candidate n) :=
  aux_findInStmts_eq n f.statements

end TP
